import Mathlib

/-!
Shallow embedding of `src/src/cong-intf.cpp` (class `CongruenceInterface` of
libsemigroups) and proofs about it.

Conventions of the embedding:
* machine integers (`size_t`) are `Nat`; the reserved sentinel values of
  `constants.hpp` are distinct large constants;
* words (`word_type`) are `List Nat`;
* the object's fields (both the `CongruenceInterface` members and the
  `Runner` lifecycle flags it inherits) form an explicit state record
  `CongState`; each method is a function on that state;
* a method that can throw returns `Except`; for mutating methods the error
  carries the state at the moment of the throw (C++ exceptions do not roll
  the object back), `const` methods return a plain `Except`;
* the virtual algorithm-specific hooks overridden by derived classes are a
  record of functions `Hooks` passed to each method that calls one.
-/

namespace Libsemigroups

/-- Source type `letter_type` (a `size_t`). -/
abbrev letter_type := Nat

/-- Source type `word_type`: a word is a list of letters. -/
abbrev word_type := List Nat

/-- Source type `class_index_type` (a `size_t`). -/
abbrev class_index_type := Nat

/-- Modelled from the spec: the reserved sentinel `UNDEFINED` of
`constants.hpp` (the header is not part of the analysed sources); the spec
only requires a single reserved sentinel value distinct from every answer the
operations can meaningfully produce, here the largest 64-bit value. -/
def UNDEFINED : Nat := 18446744073709551615

/-- Modelled from the spec: the reserved sentinel `POSITIVE_INFINITY` of
`constants.hpp` (not part of the analysed sources); a reserved value distinct
from `UNDEFINED` and from every finite class count. -/
def POSITIVE_INFINITY : Nat := 18446744073709551614

/-- Source type `congruence_type`. -/
inductive congruence_type
  | twosided
  | left
  | right
deriving DecidableEq

/-- The spec's two error kinds (§7): invalid-argument for data-dependent
precondition failures, invalid-state for lifecycle/configuration ones. -/
inductive ErrKind
  | invalidArgument
  | invalidState
deriving DecidableEq

/-- One constructor per `LIBSEMIGROUPS_EXCEPTION` site of the translation
unit, carrying the data the site formats into its message.  For
`letterOutOfBounds` the source formats
`"letter index out of bounds in word %s, expected value in [0, %d), got %d"`
and supplies the arguments `detail::to_string(w), l, _nr_gens` in that
order; the fields record what lands in each format slot: `fmtWord` the `%s`
slot, `fmtRangeBound` the bound of the printed range `[0, %d)`, and
`fmtGot` the value printed after `got`. -/
inductive Err
  | noGeneratorsSet
  | cannotChangeNrGens
  | nrGensMustBeNonzero
  | cannotSetNrGensAtThisStage
  | cannotAddPairsAtThisStage
  | noGeneratorsDefined
  | letterOutOfBounds (fmtWord : word_type) (fmtRangeBound : Nat) (fmtGot : Nat)
  | mustBeTwosided
  | quotientInfinite
  | noParentSemigroup
deriving DecidableEq

/-- Classification of each exception site into the spec's two error kinds
(§7: zero generator count and out-of-range letters are invalid-argument;
everything lifecycle/configuration related is invalid-state). -/
def Err.kind : Err → ErrKind
  | .nrGensMustBeNonzero => .invalidArgument
  | .letterOutOfBounds _ _ _ => .invalidArgument
  | _ => .invalidState

/-- Source type `tril`: three-valued truth. -/
inductive tril
  | TRUE
  | FALSE
  | unknown
deriving DecidableEq

/-- The facet of `FroidurePinBase` that `CongruenceInterface` calls into:
generator count, element count, enumeration-finished predicate, equality of
two words in the parent, and the factorisation word of the element at a
position. -/
structure FroidurePinBase where
  nr_generators : Nat
  size : Nat
  finished : Bool
  equal_to : word_type → word_type → Bool
  factorisation : Nat → word_type

/-- The quotient `FroidurePin` object as far as this translation unit
observes it: its enumeration-finished flag, its immutability flag, and its
element count (standing in for the rest of its identity). -/
structure QuotientFP where
  finished : Bool
  immutable : Bool
  size : Nat
deriving DecidableEq

/-- The state of one `CongruenceInterface` object: the `Runner` lifecycle
flags it inherits, the non-mutable members, and the mutable cached members
(the two groups of the constructor's initialiser list). -/
structure CongState where
  started : Bool
  finished : Bool
  stopped : Bool
  gen_pairs : List (word_type × word_type)
  nr_gens : Nat
  parent : Option FroidurePinBase
  type : congruence_type
  init_ntc_done : Bool
  is_obviously_finite : Bool
  is_obviously_infinite : Bool
  quotient : Option QuotientFP
  non_trivial_classes : Option (List (List word_type))

/-- Accessor `kind()` of the source. -/
def CongState.kind (s : CongState) : congruence_type := s.type

/-- The virtual hooks a derived class supplies.  A mutating hook is a state
transformer; `const_word_to_class_index` is `const` (no state result) and may
throw; `quotient_impl` may throw, its error carrying the state at the
throw. -/
structure Hooks where
  add_pair_impl : word_type → word_type → CongState → CongState
  set_nr_generators_impl : Nat → CongState → CongState
  const_word_to_class_index : word_type → CongState → Except Err class_index_type
  word_to_class_index_impl : word_type → CongState → class_index_type × CongState
  nr_classes_impl : CongState → Nat × CongState
  quotient_impl : CongState → Except (Err × CongState) (QuotientFP × CongState)
  is_quotient_obviously_infinite_impl : CongState → Bool × CongState

/-- The trivial hook record: the default bodies the source gives
(`add_pair_impl` and `set_nr_generators_impl` do nothing,
`const_word_to_class_index` returns `UNDEFINED`), and arbitrary concrete
choices for the hooks that are pure virtual in the source. -/
def trivialHooks : Hooks where
  add_pair_impl := fun _ _ s => s
  set_nr_generators_impl := fun _ s => s
  const_word_to_class_index := fun _ _ => .ok UNDEFINED
  word_to_class_index_impl := fun _ s => (0, s)
  nr_classes_impl := fun s => (1, s)
  quotient_impl := fun s => .ok ({ finished := false, immutable := false, size := 1 }, s)
  is_quotient_obviously_infinite_impl := fun s => (false, s)

/-- Method `CongruenceInterface::reset` (lines 295-302): clears the finished flag,
the non-trivial-classes cache and its done flag, the cached quotient, and the
two finiteness flags. -/
def reset (s : CongState) : CongState :=
  { s with
    finished := false
    non_trivial_classes := none
    init_ntc_done := false
    quotient := none
    is_obviously_finite := false
    is_obviously_infinite := false }

/-- The constructor `CongruenceInterface(congruence_type)` (lines 33-47): the
initialiser list followed by the call to `reset()`. -/
def construct (t : congruence_type) : CongState :=
  reset
    { started := false
      finished := false
      stopped := false
      gen_pairs := []
      nr_gens := UNDEFINED
      parent := none
      type := t
      init_ntc_done := false
      is_obviously_finite := false
      is_obviously_infinite := false
      quotient := none
      non_trivial_classes := none }

/-- Method `CongruenceInterface::validate_letter` (lines 308-313): throws if no
generators are defined, otherwise reports whether the letter is below the
generator count. -/
def validate_letter (s : CongState) (c : letter_type) : Except Err Bool :=
  if s.nr_gens = UNDEFINED then .error .noGeneratorsDefined
  else .ok (decide (c < s.nr_gens))

/-- The loop body of `CongruenceInterface::validate_word` (lines 315-327),
carrying the whole word for the exception message.  The exception arguments
are passed exactly as the source passes them: `w`, then the letter `l`, then
`_nr_gens`. -/
def validate_word_go (s : CongState) (w : word_type) : List Nat → Except Err Unit
  | [] => .ok ()
  | l :: rest =>
    match validate_letter s l with
    | .error e => .error e
    | .ok b =>
      if b then validate_word_go s w rest
      else .error (.letterOutOfBounds w l s.nr_gens)

/-- Method `CongruenceInterface::validate_word` (lines 315-327). -/
def validate_word (s : CongState) (w : word_type) : Except Err Unit :=
  validate_word_go s w w

/-- Method `CongruenceInterface::set_nr_generators` (lines 96-112). -/
def set_nr_generators (h : Hooks) (n : Nat) (s : CongState) :
    Except (Err × CongState) CongState :=
  if s.nr_gens ≠ UNDEFINED then
    if s.nr_gens ≠ n then .error (.cannotChangeNrGens, s)
    else .ok s
  else if n = 0 then .error (.nrGensMustBeNonzero, s)
  else if s.started then .error (.cannotSetNrGensAtThisStage, s)
  else .ok (reset (h.set_nr_generators_impl n { s with nr_gens := n }))

/-- The compound condition `has_parent_froidure_pin() &&
parent_froidure_pin()->equal_to(u, v)` of `add_pair` (lines 127-128). -/
def parentEqual (s : CongState) (u v : word_type) : Bool :=
  match s.parent with
  | some p => p.equal_to u v
  | none => false

/-- Method `CongruenceInterface::add_pair` (lines 118-136). -/
def add_pair (h : Hooks) (u v : word_type) (s : CongState) :
    Except (Err × CongState) CongState :=
  if s.started then .error (.cannotAddPairsAtThisStage, s)
  else
    match validate_word s u with
    | .error e => .error (e, s)
    | .ok _ =>
      match validate_word s v with
      | .error e => .error (e, s)
      | .ok _ =>
        if u = v then .ok s
        else if parentEqual s u v then .ok s
        else .ok (reset (h.add_pair_impl u v
          { s with gen_pairs := s.gen_pairs ++ [(u, v)] }))

/-- Method `CongruenceInterface::const_contains` (lines 70-94): a `const` method;
exceptions of the lookup hook are caught and turned into `unknown`,
exceptions of the word validation propagate. -/
def const_contains (h : Hooks) (u v : word_type) (s : CongState) :
    Except Err tril :=
  match validate_word s u with
  | .error e => .error e
  | .ok _ =>
    match validate_word s v with
    | .error e => .error e
    | .ok _ =>
      if u = v then .ok tril.TRUE
      else
        match h.const_word_to_class_index u s with
        | .error _ => .ok tril.unknown
        | .ok uu =>
          match h.const_word_to_class_index v s with
          | .error _ => .ok tril.unknown
          | .ok vv =>
            if uu = UNDEFINED ∨ vv = UNDEFINED then .ok tril.unknown
            else if uu = vv then .ok tril.TRUE
            else if s.finished then .ok tril.FALSE
            else .ok tril.unknown

/-- Method `CongruenceInterface::word_to_class_index` (lines 214-219): validate,
then delegate to the mutating hook. -/
def word_to_class_index (h : Hooks) (w : word_type) (s : CongState) :
    Except (Err × CongState) (class_index_type × CongState) :=
  match validate_word s w with
  | .error e => .error (e, s)
  | .ok _ => .ok (h.word_to_class_index_impl w s)

/-- The condition `has_quotient_froidure_pin() &&
quotient_froidure_pin()->finished()` of lines 178-179 (when the quotient is
cached, `quotient_froidure_pin` returns it without side effect). -/
def quotientFinished (s : CongState) : Bool :=
  match s.quotient with
  | some q => q.finished
  | none => false

/-- The condition `has_parent_froidure_pin() &&
parent_froidure_pin()->finished()` of line 184. -/
def parentFinished (s : CongState) : Bool :=
  match s.parent with
  | some p => p.finished
  | none => false

/-- Method `CongruenceInterface::is_quotient_obviously_infinite` (lines 168-194). -/
def is_quotient_obviously_infinite (h : Hooks) (s : CongState) :
    Bool × CongState :=
  if s.nr_gens = UNDEFINED then (false, s)
  else if quotientFinished s then (false, s)
  else if parentFinished s then (false, s)
  else
    match h.is_quotient_obviously_infinite_impl s with
    | (true, s1) => (true, s1)
    | (false, s1) => (false, s1)

/-- Method `CongruenceInterface::nr_classes` (lines 205-212); by short-circuit
evaluation the heuristic runs only when the computation is unfinished. -/
def nr_classes (h : Hooks) (s : CongState) : Nat × CongState :=
  if s.nr_gens = UNDEFINED then (UNDEFINED, s)
  else if s.finished = false then
    match is_quotient_obviously_infinite h s with
    | (true, s1) => (POSITIVE_INFINITY, s1)
    | (false, s1) => h.nr_classes_impl s1
  else h.nr_classes_impl s

/-- Method `CongruenceInterface::quotient_froidure_pin` (lines 152-166). -/
def quotient_froidure_pin (h : Hooks) (s : CongState) :
    Except (Err × CongState) (QuotientFP × CongState) :=
  match s.quotient with
  | some q => .ok (q, s)
  | none =>
    if s.type ≠ congruence_type.twosided then .error (.mustBeTwosided, s)
    else
      match is_quotient_obviously_infinite h s with
      | (true, s1) => .error (.quotientInfinite, s1)
      | (false, s1) =>
        match h.quotient_impl s1 with
        | .error e => .error e
        | .ok (q, s2) =>
          .ok ({ q with immutable := true },
               { s2 with quotient := some { q with immutable := true } })

/-- Method `CongruenceInterface::set_parent_froidure_pin` (lines 225-237).  The
`LIBSEMIGROUPS_ASSERT` preconditions are no-ops outside debug builds; the
method is declared `noexcept`, and the only call that could throw is the
`set_nr_generators` call, modelled here as propagating. -/
def set_parent_froidure_pin (h : Hooks) (prnt : FroidurePinBase)
    (s : CongState) : Except (Err × CongState) CongState :=
  if s.nr_gens = UNDEFINED then
    match set_nr_generators h prnt.nr_generators s with
    | .error e => .error e
    | .ok s1 => .ok (reset { s1 with parent := some prnt })
  else .ok (reset { s with parent := some prnt })

/-- Operation `ntc[i].push_back(w)` on the table (line 273); out-of-range `i` (undefined
behaviour in the source, guarded by an assert) leaves the table unchanged. -/
def pushAt : List (List word_type) → Nat → word_type → List (List word_type)
  | [], _, _ => []
  | b :: t, 0, w => (b ++ [w]) :: t
  | b :: t, i + 1, w => b :: pushAt t i w

/-- The loop of `non_trivial_classes_impl` (lines 269-274) over the remaining
positions: factorise, compute the class index (which validates and may
throw), push the word into its bucket. -/
def ntcLoop (h : Hooks) (p : FroidurePinBase) :
    List Nat → List (List word_type) → CongState →
    Except (Err × CongState) (List (List word_type) × CongState)
  | [], t, s => .ok (t, s)
  | pos :: rest, t, s =>
    match word_to_class_index h (p.factorisation pos) s with
    | .error e => .error e
    | .ok (i, s1) => ntcLoop h p rest (pushAt t i (p.factorisation pos)) s1

/-- Method `CongruenceInterface::non_trivial_classes_impl` (lines 254-282): throw if
no parent, build a table with `nr_classes()` buckets, place each parent
element's factorisation word into the bucket of its class index, and erase
the buckets of size at most one. -/
def non_trivial_classes_impl (h : Hooks) (s : CongState) :
    Except (Err × CongState) (List (List word_type) × CongState) :=
  match s.parent with
  | none => .error (.noParentSemigroup, s)
  | some p =>
    match nr_classes h s with
    | (nc, s1) =>
      match ntcLoop h p (List.range p.size) (List.replicate nc []) s1 with
      | .error e => .error e
      | .ok (table, s2) =>
        .ok (table.filter (fun klass => decide (1 < klass.length)), s2)

/-!  Concrete objects used by witnesses and counterexamples. -/

/-- A freshly constructed two-sided congruence. -/
def freshTwosided : CongState := construct congruence_type.twosided

/-- The fresh two-sided congruence after its generator count is fixed to 2. -/
def stateGens2 : CongState := { freshTwosided with nr_gens := 2 }

/-- The quotient object produced and cached by `quotient_froidure_pin` with
the trivial hooks. -/
def qImm : QuotientFP := { finished := false, immutable := true, size := 1 }

/-- The state `stateGens2` after `quotient_froidure_pin` has cached `qImm`. -/
def stateCachedQ : CongState := { stateGens2 with quotient := some qImm }

/-- A parent structure whose equality test identifies all words. -/
def parentAllEqual : FroidurePinBase where
  nr_generators := 2
  size := 1
  finished := true
  equal_to := fun _ _ => true
  factorisation := fun _ => []

/-- The state `stateGens2` with one generating pair recorded. -/
def statePair : CongState := { stateGens2 with gen_pairs := [([0], [1])] }

/-!  C1: the checks of `set_nr_generators` and their order. -/

/-- C1, counterexample: the claim says `set_nr_generators 0` raises an
invalid-argument error for every prior state, but on a state whose generator
count is already fixed to 2 the already-fixed-count check fires first and the
call fails with the invalid-state error `cannotChangeNrGens`. -/
theorem c1_set_nr_generators_zero_counterexample :
    set_nr_generators trivialHooks 0 stateGens2
        = .error (Err.cannotChangeNrGens, stateGens2)
      ∧ Err.cannotChangeNrGens.kind = ErrKind.invalidState
      ∧ Err.cannotChangeNrGens.kind ≠ ErrKind.invalidArgument := by
  exact ⟨rfl, rfl, by decide⟩

/-- C1, amended: the already-fixed-count check precedes the `n == 0` check.
If a count is already fixed, any different `n` (zero included) raises
invalid-state and an equal `n` is a no-op; if no count is fixed, `n == 0`
raises invalid-argument (even after the entity has started), and otherwise a
started entity raises invalid-state. -/
theorem c1_set_nr_generators_cases (h : Hooks) (n : Nat) (s : CongState) :
    (s.nr_gens ≠ UNDEFINED → s.nr_gens ≠ n →
      set_nr_generators h n s = .error (Err.cannotChangeNrGens, s)
        ∧ Err.cannotChangeNrGens.kind = ErrKind.invalidState)
    ∧ (s.nr_gens ≠ UNDEFINED → s.nr_gens = n →
      set_nr_generators h n s = .ok s)
    ∧ (s.nr_gens = UNDEFINED → n = 0 →
      set_nr_generators h n s = .error (Err.nrGensMustBeNonzero, s)
        ∧ Err.nrGensMustBeNonzero.kind = ErrKind.invalidArgument)
    ∧ (s.nr_gens = UNDEFINED → n ≠ 0 → s.started = true →
      set_nr_generators h n s = .error (Err.cannotSetNrGensAtThisStage, s)
        ∧ Err.cannotSetNrGensAtThisStage.kind = ErrKind.invalidState) := by
  refine ⟨fun h1 h2 => ⟨?_, rfl⟩, fun h1 h2 => ?_, fun h1 h2 => ⟨?_, rfl⟩,
    fun h1 h2 h3 => ⟨?_, rfl⟩⟩
  · simp [set_nr_generators, h1, h2]
  · subst h2
    simp [set_nr_generators, h1]
  · simp [set_nr_generators, h1, h2]
  · simp [set_nr_generators, h1, h2, h3]

/-- C1, witness: at a fresh entity the zero count raises invalid-argument,
and re-fixing the same count 2 on `stateGens2` is a no-op. -/
theorem c1_set_nr_generators_cases_witness :
    (set_nr_generators trivialHooks 0 freshTwosided
        = .error (Err.nrGensMustBeNonzero, freshTwosided)
      ∧ Err.nrGensMustBeNonzero.kind = ErrKind.invalidArgument)
    ∧ set_nr_generators trivialHooks 2 stateGens2 = .ok stateGens2 :=
  ⟨(c1_set_nr_generators_cases trivialHooks 0 freshTwosided).2.2.1 rfl rfl,
   (c1_set_nr_generators_cases trivialHooks 2 stateGens2).2.1 (by decide) rfl⟩

/-!  C2: `validate_word` and its exception message. -/

/-- C2: with generator count 2 the word `[5]` makes `validate_word` throw,
but the format arguments of the message are passed in the wrong order: the
bound of the printed range `[0, %d)` receives the offending letter 5 and the
`got %d` slot receives the generator count 2, whereas the documented message
names the valid range `[0, generator count)` and the offending letter in the
`got` slot. -/
theorem c2_validate_word_message_swapped :
    validate_word stateGens2 [5]
        = .error (Err.letterOutOfBounds [5] 5 2)
      ∧ stateGens2.nr_gens = 2
      ∧ (Err.letterOutOfBounds [5] 5 2).kind = ErrKind.invalidArgument
      ∧ Err.letterOutOfBounds [5] 5 2 ≠ Err.letterOutOfBounds [5] 2 5 := by
  exact ⟨rfl, rfl, rfl, by decide⟩

/-!  C5: the silent no-op paths of `add_pair`. -/

/-- C5: on an unstarted entity, `add_pair u v` with `u = v`, or with the two
words identified by an attached parent, returns successfully with the state
exactly unchanged — for every possible hook record, so the algorithm hook is
never invoked, nothing is appended, and no reset happens. -/
theorem c5_add_pair_noop (h : Hooks) (u v : word_type) (s : CongState)
    (hs : s.started = false)
    (hu : validate_word s u = .ok ())
    (hv : validate_word s v = .ok ())
    (hne : u = v ∨ parentEqual s u v = true) :
    add_pair h u v s = .ok s := by
  rcases hne with hne | hne
  · subst hne
    simp [add_pair, hs, hu]
  · by_cases huv : u = v
    · subst huv
      simp [add_pair, hs, hu]
    · simp [add_pair, hs, hu, hv, huv, hne]

/-- C5, witness: concrete instances of both no-op paths, on `stateGens2` for
the trivially equal pair and on `statePair` with `parentAllEqual` attached
for the parent-identified pair. -/
theorem c5_add_pair_noop_witness :
    add_pair trivialHooks [0] [0] stateGens2 = .ok stateGens2
      ∧ add_pair trivialHooks [0] [1]
          { statePair with parent := some parentAllEqual }
          = .ok { statePair with parent := some parentAllEqual } :=
  ⟨c5_add_pair_noop trivialHooks [0] [0] stateGens2 rfl rfl rfl (Or.inl rfl),
   c5_add_pair_noop trivialHooks [0] [1] _ rfl rfl rfl (Or.inr rfl)⟩

/-!  C9: the reset operation. -/

/-- C9: `reset` is a total function (it never fails) that clears exactly the
six mutable items — the finished flag, the non-trivial-classes cache and its
done flag, the cached quotient, and the two finiteness flags — and leaves
every other field (generator count, generating pairs, parent, kind, and the
remaining lifecycle flags) unchanged; the constructor applies it, and each
mutating configuration path of `set_nr_generators`, `add_pair` and
`set_parent_froidure_pin` ends by applying it — for the attach both when the
count is already defined and when a nonzero count is copied from the parent
(where the inner `set_nr_generators` call has already applied it once). -/
theorem c9_reset_frame :
    (∀ s : CongState, reset s =
      { s with
        finished := false
        non_trivial_classes := none
        init_ntc_done := false
        quotient := none
        is_obviously_finite := false
        is_obviously_infinite := false })
    ∧ (∀ t, construct t = reset
        { started := false
          finished := false
          stopped := false
          gen_pairs := []
          nr_gens := UNDEFINED
          parent := none
          type := t
          init_ntc_done := false
          is_obviously_finite := false
          is_obviously_infinite := false
          quotient := none
          non_trivial_classes := none })
    ∧ (∀ h n (s : CongState), s.nr_gens = UNDEFINED → n ≠ 0 → s.started = false →
        set_nr_generators h n s
          = .ok (reset (h.set_nr_generators_impl n { s with nr_gens := n })))
    ∧ (∀ h u v (s : CongState), s.started = false →
        validate_word s u = .ok () → validate_word s v = .ok () →
        u ≠ v → parentEqual s u v = false →
        add_pair h u v s
          = .ok (reset (h.add_pair_impl u v
              { s with gen_pairs := s.gen_pairs ++ [(u, v)] })))
    ∧ (∀ h prnt (s : CongState), s.nr_gens ≠ UNDEFINED →
        set_parent_froidure_pin h prnt s
          = .ok (reset { s with parent := some prnt }))
    ∧ (∀ h prnt (s : CongState), s.nr_gens = UNDEFINED →
        prnt.nr_generators ≠ 0 → s.started = false →
        set_parent_froidure_pin h prnt s
          = .ok (reset { (reset (h.set_nr_generators_impl prnt.nr_generators
              { s with nr_gens := prnt.nr_generators }))
              with parent := some prnt })) := by
  refine ⟨fun s => rfl, fun t => rfl, fun h n s h1 h2 h3 => ?_,
    fun h u v s h1 h2 h3 h4 h5 => ?_, fun h prnt s h1 => ?_,
    fun h prnt s h1 h2 h3 => ?_⟩
  · simp [set_nr_generators, h1, h2, h3]
  · simp [add_pair, h1, h2, h3, h4, h5]
  · simp [set_parent_froidure_pin, h1]
  · simp [set_parent_froidure_pin, set_nr_generators, h1, h2, h3]

/-- C9, witness: the reset equalities at concrete states, and the four
mutation paths at concrete inputs. -/
theorem c9_reset_frame_witness :
    reset stateCachedQ =
      { stateCachedQ with
        finished := false
        non_trivial_classes := none
        init_ntc_done := false
        quotient := none
        is_obviously_finite := false
        is_obviously_infinite := false }
    ∧ set_nr_generators trivialHooks 2 freshTwosided
        = .ok (reset (trivialHooks.set_nr_generators_impl 2
            { freshTwosided with nr_gens := 2 }))
    ∧ add_pair trivialHooks [0] [1] stateGens2
        = .ok (reset (trivialHooks.add_pair_impl [0] [1]
            { stateGens2 with gen_pairs := stateGens2.gen_pairs ++ [([0], [1])] }))
    ∧ set_parent_froidure_pin trivialHooks parentAllEqual stateGens2
        = .ok (reset { stateGens2 with parent := some parentAllEqual })
    ∧ set_parent_froidure_pin trivialHooks parentAllEqual freshTwosided
        = .ok (reset { (reset (trivialHooks.set_nr_generators_impl
            parentAllEqual.nr_generators
            { freshTwosided with nr_gens := parentAllEqual.nr_generators }))
            with parent := some parentAllEqual }) :=
  ⟨c9_reset_frame.1 stateCachedQ,
   c9_reset_frame.2.2.1 trivialHooks 2 freshTwosided rfl (by decide) rfl,
   c9_reset_frame.2.2.2.1 trivialHooks [0] [1] stateGens2 rfl rfl rfl
     (by decide) rfl,
   c9_reset_frame.2.2.2.2.1 trivialHooks parentAllEqual stateGens2 (by decide),
   c9_reset_frame.2.2.2.2.2 trivialHooks parentAllEqual freshTwosided rfl
     (by decide) rfl⟩

/-!  C10: attaching a parent does not re-filter the recorded pairs. -/

/-- C10: on a state whose generator count is already defined (as it must be
once any pair was validated and recorded), `set_parent_froidure_pin` succeeds
and leaves the generating-pair sequence exactly unchanged; in particular a
recorded pair of distinct words that the newly attached parent identifies is
still in the sequence afterwards. -/
theorem c10_set_parent_preserves_pairs (h : Hooks) (prnt : FroidurePinBase)
    (s : CongState) (hg : s.nr_gens ≠ UNDEFINED) :
    ∃ s1, set_parent_froidure_pin h prnt s = .ok s1
      ∧ s1.gen_pairs = s.gen_pairs
      ∧ s1.parent = some prnt
      ∧ ∀ u v, (u, v) ∈ s.gen_pairs → prnt.equal_to u v = true →
          (u, v) ∈ s1.gen_pairs := by
  refine ⟨reset { s with parent := some prnt }, ?_, rfl, rfl, ?_⟩
  · simp [set_parent_froidure_pin, hg]
  · intro u v hmem _
    exact hmem

/-- C10, witness: attaching `parentAllEqual` (which identifies all words) to
`statePair`, whose recorded pair `([0], [1])` has distinct words, keeps that
pair in the sequence. -/
theorem c10_set_parent_preserves_pairs_witness :
    ∃ s1, set_parent_froidure_pin trivialHooks parentAllEqual statePair
        = .ok s1
      ∧ s1.gen_pairs = statePair.gen_pairs
      ∧ s1.parent = some parentAllEqual
      ∧ ([0], [1]) ∈ s1.gen_pairs := by
  obtain ⟨s1, h1, h2, h3, h4⟩ :=
    c10_set_parent_preserves_pairs trivialHooks parentAllEqual statePair
      (by decide)
  exact ⟨s1, h1, h2, h3, h4 [0] [1] (by simp [statePair]) rfl⟩

/-!  C3: cache invalidation after configuration calls. -/

/-- Predicate: all the mutable derived state listed by the spec is clear. -/
def cacheCleared (s : CongState) : Prop :=
  s.finished = false ∧ s.quotient = none ∧ s.non_trivial_classes = none
    ∧ s.init_ntc_done = false ∧ s.is_obviously_finite = false
    ∧ s.is_obviously_infinite = false

lemma cacheCleared_reset (s : CongState) : cacheCleared (reset s) := by
  exact ⟨rfl, rfl, rfl, rfl, rfl, rfl⟩

/-- C3, counterexample: the claim says every successful call to `add_pair`
clears the caches, but the silent no-op path does not reset.  Concretely:
from a fresh two-sided entity, fix the generator count to 2, cache a quotient
via `quotient_froidure_pin`; then the successful call `add_pair [0] [0]`
(a trivially equal pair) returns with the quotient still cached. -/
theorem c3_noop_add_pair_counterexample :
    set_nr_generators trivialHooks 2 freshTwosided = .ok stateGens2
      ∧ quotient_froidure_pin trivialHooks stateGens2 = .ok (qImm, stateCachedQ)
      ∧ add_pair trivialHooks [0] [0] stateCachedQ = .ok stateCachedQ
      ∧ stateCachedQ.quotient ≠ none := by
  exact ⟨rfl, rfl, rfl, by decide⟩

/-- C3, amended: after every successful call that actually mutates the
configuration — fixing a fresh generator count, appending a genuinely new
pair, or attaching the parent — the quotient cache, the non-trivial-classes
cache with its done flag, both finiteness flags and the finished flag are
all cleared, atomically, because each such path ends in the single `reset`
operation — for attaching the parent this is proved both when the generator
count is already defined and when the attach copies a nonzero count from the
parent; the successful no-op paths (re-fixing the same count, or a pair
whose words are equal, trivially or under the parent's equality test) leave
the entire state unchanged, caches included. -/
theorem c3_mutations_clear_caches (h : Hooks) (n : Nat) (u v : word_type)
    (prnt : FroidurePinBase) (s : CongState) :
    (s.nr_gens = UNDEFINED → n ≠ 0 → s.started = false →
      ∃ s1, set_nr_generators h n s = .ok s1 ∧ cacheCleared s1)
    ∧ (s.started = false → validate_word s u = .ok () →
        validate_word s v = .ok () → u ≠ v → parentEqual s u v = false →
      ∃ s1, add_pair h u v s = .ok s1 ∧ cacheCleared s1)
    ∧ (s.nr_gens ≠ UNDEFINED →
      ∃ s1, set_parent_froidure_pin h prnt s = .ok s1 ∧ cacheCleared s1)
    ∧ (s.nr_gens = UNDEFINED → prnt.nr_generators ≠ 0 → s.started = false →
      ∃ s1, set_parent_froidure_pin h prnt s = .ok s1 ∧ cacheCleared s1)
    ∧ (s.nr_gens ≠ UNDEFINED → s.nr_gens = n →
      set_nr_generators h n s = .ok s)
    ∧ (s.started = false → validate_word s u = .ok () → u = v →
      add_pair h u v s = .ok s)
    ∧ (s.started = false → validate_word s u = .ok () →
        validate_word s v = .ok () → parentEqual s u v = true →
      add_pair h u v s = .ok s) := by
  refine ⟨fun h1 h2 h3 => ?_, fun h1 h2 h3 h4 h5 => ?_, fun h1 => ?_,
    fun h1 h2 h3 => ?_, fun h1 h2 => ?_, fun h1 h2 h3 => ?_,
    fun h1 h2 h3 h4 => ?_⟩
  · refine ⟨reset (h.set_nr_generators_impl n { s with nr_gens := n }), ?_,
      cacheCleared_reset _⟩
    simp [set_nr_generators, h1, h2, h3]
  · refine ⟨reset (h.add_pair_impl u v
        { s with gen_pairs := s.gen_pairs ++ [(u, v)] }), ?_,
      cacheCleared_reset _⟩
    simp [add_pair, h1, h2, h3, h4, h5]
  · refine ⟨reset { s with parent := some prnt }, ?_, cacheCleared_reset _⟩
    simp [set_parent_froidure_pin, h1]
  · refine ⟨reset { (reset (h.set_nr_generators_impl prnt.nr_generators
        { s with nr_gens := prnt.nr_generators })) with parent := some prnt },
      ?_, cacheCleared_reset _⟩
    simp [set_parent_froidure_pin, set_nr_generators, h1, h2, h3]
  · subst h2
    simp [set_nr_generators, h1]
  · subst h3
    simp [add_pair, h1, h2]
  · by_cases huv : u = v
    · subst huv
      simp [add_pair, h1, h2]
    · simp [add_pair, h1, h2, h3, huv, h4]

/-- C3, witness for the amended claim: the four mutating paths (including the
attach that copies the count from the parent) and the three no-op paths at
concrete inputs. -/
theorem c3_mutations_clear_caches_witness :
    (∃ s1, set_nr_generators trivialHooks 2 freshTwosided = .ok s1
      ∧ cacheCleared s1)
    ∧ (∃ s1, add_pair trivialHooks [0] [1] stateGens2 = .ok s1
      ∧ cacheCleared s1)
    ∧ (∃ s1, set_parent_froidure_pin trivialHooks parentAllEqual stateGens2
        = .ok s1 ∧ cacheCleared s1)
    ∧ (∃ s1, set_parent_froidure_pin trivialHooks parentAllEqual freshTwosided
        = .ok s1 ∧ cacheCleared s1)
    ∧ set_nr_generators trivialHooks 2 stateGens2 = .ok stateGens2
    ∧ add_pair trivialHooks [1] [1] stateGens2 = .ok stateGens2
    ∧ add_pair trivialHooks [0] [1] { statePair with parent := some parentAllEqual }
        = .ok { statePair with parent := some parentAllEqual } :=
  ⟨(c3_mutations_clear_caches trivialHooks 2 [0] [1] parentAllEqual
      freshTwosided).1 rfl (by decide) rfl,
   (c3_mutations_clear_caches trivialHooks 2 [0] [1] parentAllEqual
      stateGens2).2.1 rfl rfl rfl (by decide) rfl,
   (c3_mutations_clear_caches trivialHooks 2 [0] [1] parentAllEqual
      stateGens2).2.2.1 (by decide),
   (c3_mutations_clear_caches trivialHooks 2 [0] [1] parentAllEqual
      freshTwosided).2.2.2.1 rfl (by decide) rfl,
   (c3_mutations_clear_caches trivialHooks 2 [0] [1] parentAllEqual
      stateGens2).2.2.2.2.1 (by decide) rfl,
   (c3_mutations_clear_caches trivialHooks 2 [1] [1] parentAllEqual
      stateGens2).2.2.2.2.2.1 rfl rfl rfl,
   (c3_mutations_clear_caches trivialHooks 2 [0] [1] parentAllEqual
      { statePair with parent := some parentAllEqual }).2.2.2.2.2.2
      rfl rfl rfl rfl⟩

/-!  C4: the three-valued best-effort membership test. -/

/-- C4: for words both of which validate, `const_contains` never propagates
an exception of the lookup hook; it answers `TRUE` on textually identical
words, `unknown` when the hook throws on either word, `unknown` when either
resolved index is the `UNDEFINED` sentinel, `TRUE` when both resolve equal,
`FALSE` when both resolve, differ, and the computation is finished, and
`unknown` when they differ unfinished — in particular it never answers
`FALSE` before the computation is finished. -/
theorem c4_const_contains_spec (h : Hooks) (u v : word_type) (s : CongState)
    (hu : validate_word s u = .ok ()) (hv : validate_word s v = .ok ()) :
    (∃ r, const_contains h u v s = .ok r)
    ∧ (u = v → const_contains h u v s = .ok tril.TRUE)
    ∧ (u ≠ v → ∀ e, h.const_word_to_class_index u s = .error e →
        const_contains h u v s = .ok tril.unknown)
    ∧ (u ≠ v → ∀ uu e, h.const_word_to_class_index u s = .ok uu →
        h.const_word_to_class_index v s = .error e →
        const_contains h u v s = .ok tril.unknown)
    ∧ (u ≠ v → ∀ uu vv, h.const_word_to_class_index u s = .ok uu →
        h.const_word_to_class_index v s = .ok vv →
        (uu = UNDEFINED ∨ vv = UNDEFINED) →
        const_contains h u v s = .ok tril.unknown)
    ∧ (u ≠ v → ∀ uu vv, h.const_word_to_class_index u s = .ok uu →
        h.const_word_to_class_index v s = .ok vv →
        uu ≠ UNDEFINED → vv ≠ UNDEFINED → uu = vv →
        const_contains h u v s = .ok tril.TRUE)
    ∧ (u ≠ v → ∀ uu vv, h.const_word_to_class_index u s = .ok uu →
        h.const_word_to_class_index v s = .ok vv →
        uu ≠ UNDEFINED → vv ≠ UNDEFINED → uu ≠ vv → s.finished = true →
        const_contains h u v s = .ok tril.FALSE)
    ∧ (u ≠ v → ∀ uu vv, h.const_word_to_class_index u s = .ok uu →
        h.const_word_to_class_index v s = .ok vv →
        uu ≠ UNDEFINED → vv ≠ UNDEFINED → uu ≠ vv → s.finished = false →
        const_contains h u v s = .ok tril.unknown)
    ∧ (s.finished = false → const_contains h u v s ≠ .ok tril.FALSE) := by
  refine ⟨?_, fun h1 => ?_, fun h1 e he => ?_, fun h1 uu e hou he => ?_,
    fun h1 uu vv hou hov hund => ?_, fun h1 uu vv hou hov hu1 hv1 heq => ?_,
    fun h1 uu vv hou hov hu1 hv1 hne hfin => ?_,
    fun h1 uu vv hou hov hu1 hv1 hne hfin => ?_, fun hfin => ?_⟩
  · unfold const_contains
    rw [hu, hv]
    by_cases h1 : u = v
    · exact ⟨tril.TRUE, by simp [h1]⟩
    · rcases he : h.const_word_to_class_index u s with e | uu
      · exact ⟨tril.unknown, by simp [h1, he]⟩
      · rcases he2 : h.const_word_to_class_index v s with e | vv
        · exact ⟨tril.unknown, by simp [h1, he, he2]⟩
        · by_cases h2 : uu = UNDEFINED ∨ vv = UNDEFINED
          · exact ⟨tril.unknown, by simp [h1, he, he2, h2]⟩
          · have h2a : ¬uu = UNDEFINED := fun hh => h2 (Or.inl hh)
            have h2b : ¬vv = UNDEFINED := fun hh => h2 (Or.inr hh)
            by_cases h3 : uu = vv
            · exact ⟨tril.TRUE, by simp [h1, he, he2, h2a, h2b, h3]⟩
            · by_cases h4 : s.finished
              · exact ⟨tril.FALSE, by simp [h1, he, he2, h2a, h2b, h3, h4]⟩
              · exact ⟨tril.unknown, by simp [h1, he, he2, h2a, h2b, h3, h4]⟩
  · simp [const_contains, hu, hv, h1]
  · simp [const_contains, hu, hv, h1, he]
  · simp [const_contains, hu, hv, h1, hou, he]
  · simp [const_contains, hu, hv, h1, hou, hov, hund]
  · subst heq
    simp [const_contains, hu, hv, h1, hou, hov, hu1, hv1]
  · simp [const_contains, hu, hv, h1, hou, hov, hu1, hv1, hne, hfin]
  · simp [const_contains, hu, hv, h1, hou, hov, hu1, hv1, hne, hfin]
  · unfold const_contains
    rw [hu, hv]
    by_cases h1 : u = v
    · simp [h1]
    · rcases he : h.const_word_to_class_index u s with e | uu
      · simp [h1, he]
      · rcases he2 : h.const_word_to_class_index v s with e | vv
        · simp [h1, he, he2]
        · by_cases h2 : uu = UNDEFINED ∨ vv = UNDEFINED
          · simp [h1, he, he2, h2]
          · have h2a : ¬uu = UNDEFINED := fun hh => h2 (Or.inl hh)
            have h2b : ¬vv = UNDEFINED := fun hh => h2 (Or.inr hh)
            by_cases h3 : uu = vv
            · simp [h1, he, he2, h2a, h2b, h3]
            · simp [h1, he, he2, h2a, h2b, h3, hfin]

/-- C4, witness: on `stateGens2` with the trivial hooks (whose lookup
returns the `UNDEFINED` sentinel), identical words answer `TRUE`, distinct
words answer `unknown`, the call never errors, and before finishing the
answer is never `FALSE`. -/
theorem c4_const_contains_spec_witness :
    (∃ r, const_contains trivialHooks [0] [1] stateGens2 = .ok r)
    ∧ const_contains trivialHooks [0] [0] stateGens2 = .ok tril.TRUE
    ∧ const_contains trivialHooks [0] [1] stateGens2 = .ok tril.unknown
    ∧ const_contains trivialHooks [0] [1] stateGens2 ≠ .ok tril.FALSE :=
  ⟨(c4_const_contains_spec trivialHooks [0] [1] stateGens2 rfl rfl).1,
   (c4_const_contains_spec trivialHooks [0] [0] stateGens2 rfl rfl).2.1 rfl,
   (c4_const_contains_spec trivialHooks [0] [1] stateGens2 rfl
      rfl).2.2.2.2.1 (by decide) UNDEFINED UNDEFINED rfl rfl (Or.inl rfl),
   (c4_const_contains_spec trivialHooks [0] [1] stateGens2 rfl
      rfl).2.2.2.2.2.2.2.2 rfl⟩

/-!  C6: the quotient accessor. -/

/-- Hook record whose infiniteness heuristic asserts infiniteness. -/
def infiniteHooks : Hooks :=
  { trivialHooks with is_quotient_obviously_infinite_impl := fun s => (true, s) }

/-- Hook record whose quotient construction throws. -/
def throwingHooks : Hooks :=
  { trivialHooks with quotient_impl := fun s => .error (.noGeneratorsSet, s) }

/-- C6: `quotient_froidure_pin` returns a cached quotient unchanged (and on
any state satisfying the source's asserted invariant that a populated cache
implies a two-sided kind, a left or right congruence never has a cache, so it
always fails with the invalid-state error `mustBeTwosided`); on a two-sided
congruence it fails with invalid-state when the quotient is obviously
infinite; otherwise it returns the hook's quotient marked immutable and
caches exactly that object; and when the hook throws, the error propagates
unchanged, so no caching happens on the failing path. -/
theorem c6_quotient_froidure_pin_spec (h : Hooks) (s : CongState) :
    (∀ q, s.quotient = some q → quotient_froidure_pin h s = .ok (q, s))
    ∧ (s.quotient = none → s.type ≠ congruence_type.twosided →
        quotient_froidure_pin h s = .error (.mustBeTwosided, s)
          ∧ Err.mustBeTwosided.kind = ErrKind.invalidState)
    ∧ ((∀ q, s.quotient = some q → s.type = congruence_type.twosided) →
        s.type ≠ congruence_type.twosided →
        quotient_froidure_pin h s = .error (.mustBeTwosided, s))
    ∧ (∀ s1, s.quotient = none → s.type = congruence_type.twosided →
        is_quotient_obviously_infinite h s = (true, s1) →
        quotient_froidure_pin h s = .error (.quotientInfinite, s1)
          ∧ Err.quotientInfinite.kind = ErrKind.invalidState)
    ∧ (∀ s1 q s2, s.quotient = none → s.type = congruence_type.twosided →
        is_quotient_obviously_infinite h s = (false, s1) →
        h.quotient_impl s1 = .ok (q, s2) →
        quotient_froidure_pin h s
          = .ok ({ q with immutable := true },
                 { s2 with quotient := some { q with immutable := true } }))
    ∧ (∀ s1 e s2, s.quotient = none → s.type = congruence_type.twosided →
        is_quotient_obviously_infinite h s = (false, s1) →
        h.quotient_impl s1 = .error (e, s2) →
        quotient_froidure_pin h s = .error (e, s2)
          ∧ (s2.quotient = none → ∃ serr, quotient_froidure_pin h s
              = .error (e, serr) ∧ serr.quotient = none)) := by
  refine ⟨fun q hq => ?_, fun h1 h2 => ⟨?_, rfl⟩, fun hinv h2 => ?_,
    fun s1 h1 h2 h3 => ⟨?_, rfl⟩, fun s1 q s2 h1 h2 h3 h4 => ?_,
    fun s1 e s2 h1 h2 h3 h4 => ?_⟩
  · simp [quotient_froidure_pin, hq]
  · simp [quotient_froidure_pin, h1, h2]
  · rcases hq : s.quotient with _ | q
    · simp [quotient_froidure_pin, hq, h2]
    · exact absurd (hinv q hq) h2
  · simp [quotient_froidure_pin, h1, h2, h3]
  · simp [quotient_froidure_pin, h1, h2, h3, h4]
  · have heq : quotient_froidure_pin h s = .error (e, s2) := by
      simp [quotient_froidure_pin, h1, h2, h3, h4]
    exact ⟨heq, fun h5 => ⟨s2, heq, h5⟩⟩

/-- C6, witness: a left congruence fails with invalid-state; a two-sided one
whose heuristic asserts infiniteness fails with invalid-state; on
`stateGens2` the trivial hooks construct, freeze and cache `qImm`; with a
throwing construction hook the error propagates and the cache stays empty. -/
theorem c6_quotient_froidure_pin_spec_witness :
    (quotient_froidure_pin trivialHooks (construct congruence_type.left)
        = .error (.mustBeTwosided, construct congruence_type.left)
      ∧ Err.mustBeTwosided.kind = ErrKind.invalidState)
    ∧ quotient_froidure_pin infiniteHooks stateGens2
        = .error (.quotientInfinite, stateGens2)
    ∧ quotient_froidure_pin trivialHooks stateGens2 = .ok (qImm, stateCachedQ)
    ∧ quotient_froidure_pin trivialHooks stateCachedQ = .ok (qImm, stateCachedQ)
    ∧ (∃ serr, quotient_froidure_pin throwingHooks stateGens2
        = .error (.noGeneratorsSet, serr) ∧ serr.quotient = none) :=
  ⟨(c6_quotient_froidure_pin_spec trivialHooks
      (construct congruence_type.left)).2.1 rfl (by decide),
   ((c6_quotient_froidure_pin_spec infiniteHooks stateGens2).2.2.2.1
      stateGens2 rfl rfl rfl).1,
   (c6_quotient_froidure_pin_spec trivialHooks stateGens2).2.2.2.2.1
      stateGens2 { finished := false, immutable := false, size := 1 }
      stateGens2 rfl rfl rfl rfl,
   (c6_quotient_froidure_pin_spec trivialHooks stateCachedQ).1 qImm rfl,
   ((c6_quotient_froidure_pin_spec throwingHooks stateGens2).2.2.2.2.2
      stateGens2 Err.noGeneratorsSet stateGens2 rfl rfl rfl rfl).2 rfl⟩

/-!  C8: the class-count query. -/

/-- C8: `nr_classes` returns the `UNDEFINED` sentinel when the generator
count is undefined; when the computation is unfinished and the quotient is
obviously infinite it returns the `POSITIVE_INFINITY` sentinel, and in both
of these cases the result is the same for every possible `nr_classes_impl`
hook (the hook is not consulted); in the remaining cases it returns exactly
the value of the hook. -/
theorem c8_nr_classes_spec (h : Hooks) (s : CongState) :
    (s.nr_gens = UNDEFINED →
      ∀ g, nr_classes { h with nr_classes_impl := g } s = (UNDEFINED, s))
    ∧ (∀ s1, s.nr_gens ≠ UNDEFINED → s.finished = false →
        is_quotient_obviously_infinite h s = (true, s1) →
        ∀ g, nr_classes { h with nr_classes_impl := g } s
          = (POSITIVE_INFINITY, s1))
    ∧ (∀ s1, s.nr_gens ≠ UNDEFINED → s.finished = false →
        is_quotient_obviously_infinite h s = (false, s1) →
        nr_classes h s = h.nr_classes_impl s1)
    ∧ (s.nr_gens ≠ UNDEFINED → s.finished = true →
        nr_classes h s = h.nr_classes_impl s) := by
  refine ⟨fun h1 g => ?_, fun s1 h1 h2 h3 g => ?_, fun s1 h1 h2 h3 => ?_,
    fun h1 h2 => ?_⟩
  · simp [nr_classes, h1]
  · have h3a : is_quotient_obviously_infinite { h with nr_classes_impl := g } s
        = (true, s1) := h3
    simp [nr_classes, h1, h2, h3a]
  · simp [nr_classes, h1, h2, h3]
  · simp [nr_classes, h1, h2]

/-- C8, witness: on a fresh entity the count is the `UNDEFINED` sentinel for
any hook; on `stateGens2` with the infiniteness-asserting heuristic it is the
`POSITIVE_INFINITY` sentinel for any hook; with the trivial hooks it is the
hook's value. -/
theorem c8_nr_classes_spec_witness :
    nr_classes { trivialHooks with nr_classes_impl := fun s => (5, s) }
        freshTwosided = (UNDEFINED, freshTwosided)
    ∧ nr_classes { infiniteHooks with nr_classes_impl := fun s => (5, s) }
        stateGens2 = (POSITIVE_INFINITY, stateGens2)
    ∧ nr_classes trivialHooks stateGens2
        = trivialHooks.nr_classes_impl stateGens2 :=
  ⟨(c8_nr_classes_spec trivialHooks freshTwosided).1 rfl (fun s => (5, s)),
   (c8_nr_classes_spec infiniteHooks stateGens2).2.1 stateGens2 (by decide)
      rfl rfl (fun s => (5, s)),
   (c8_nr_classes_spec trivialHooks stateGens2).2.2.1 stateGens2 (by decide)
      rfl rfl⟩

/-!  C7: the non-trivial classes computation.  The loop is related to a pure
table builder, about which the partition facts are proved. -/

/-- Sum of the sizes of the buckets of a table. -/
def sumLen (t : List (List word_type)) : Nat := (t.map List.length).sum

/-- Pure counterpart of the loop of `non_trivial_classes_impl`: starting
from `t`, push the word of each listed position into the bucket named by the
class-index function `f`. -/
def buildTable (f : word_type → Nat) (wordOf : Nat → word_type) :
    List Nat → List (List word_type) → List (List word_type)
  | [], t => t
  | pos :: rest, t =>
    buildTable f wordOf rest (pushAt t (f (wordOf pos)) (wordOf pos))

/-- Reading a bucket of the table (out-of-range reads give `[]`). -/
def bucketGet : List (List word_type) → Nat → List word_type
  | [], _ => []
  | b :: _, 0 => b
  | _ :: t, i + 1 => bucketGet t i

/-- The table built by the loop of `non_trivial_classes_impl`, before the
erasure of the small buckets: `nr_classes()` empty buckets, then one push per
parent position. -/
def ntcTable (f : word_type → Nat) (p : FroidurePinBase) (nc : Nat) :
    List (List word_type) :=
  buildTable f p.factorisation (List.range p.size) (List.replicate nc [])

lemma pushAt_length (t : List (List word_type)) (i : Nat) (w : word_type) :
    (pushAt t i w).length = t.length := by
  induction t generalizing i with
  | nil => rfl
  | cons b t ih =>
    cases i with
    | zero => rfl
    | succ j => simp [pushAt, ih]

lemma pushAt_of_le (t : List (List word_type)) (i : Nat) (w : word_type)
    (hi : t.length ≤ i) : pushAt t i w = t := by
  induction t generalizing i with
  | nil => rfl
  | cons b t ih =>
    cases i with
    | zero => simp at hi
    | succ j =>
      have := ih j (by simpa using hi)
      simp [pushAt, this]

lemma bucketGet_pushAt_self (t : List (List word_type)) (i : Nat)
    (w : word_type) (hi : i < t.length) :
    bucketGet (pushAt t i w) i = bucketGet t i ++ [w] := by
  induction t generalizing i with
  | nil => simp at hi
  | cons b t ih =>
    cases i with
    | zero => rfl
    | succ j =>
      have := ih j (by simpa using hi)
      simpa [pushAt, bucketGet] using this

lemma bucketGet_pushAt_ne (t : List (List word_type)) (i j : Nat)
    (w : word_type) (hij : i ≠ j) :
    bucketGet (pushAt t j w) i = bucketGet t i := by
  induction t generalizing i j with
  | nil => rfl
  | cons b t ih =>
    cases j with
    | zero =>
      cases i with
      | zero => exact absurd rfl hij
      | succ i2 => rfl
    | succ j2 =>
      cases i with
      | zero => rfl
      | succ i2 =>
        have := ih i2 j2 (fun hh => hij (by rw [hh]))
        simpa [pushAt, bucketGet] using this

lemma sumLen_pushAt (t : List (List word_type)) (i : Nat) (w : word_type)
    (hi : i < t.length) : sumLen (pushAt t i w) = sumLen t + 1 := by
  induction t generalizing i with
  | nil => simp at hi
  | cons b t ih =>
    cases i with
    | zero =>
      simp [pushAt, sumLen]
      omega
    | succ j =>
      have := ih j (by simpa using hi)
      simp [pushAt, sumLen] at this ⊢
      omega

lemma buildTable_length (f : word_type → Nat) (wordOf : Nat → word_type)
    (ps : List Nat) (t : List (List word_type)) :
    (buildTable f wordOf ps t).length = t.length := by
  induction ps generalizing t with
  | nil => rfl
  | cons pos rest ih => simp [buildTable, ih, pushAt_length]

lemma buildTable_sumLen (f : word_type → Nat) (wordOf : Nat → word_type)
    (ps : List Nat) (t : List (List word_type))
    (hb : ∀ pos ∈ ps, f (wordOf pos) < t.length) :
    sumLen (buildTable f wordOf ps t) = sumLen t + ps.length := by
  induction ps generalizing t with
  | nil => simp [buildTable]
  | cons pos rest ih =>
    have h1 : f (wordOf pos) < t.length := hb pos (List.mem_cons_self _ _)
    have h2 : ∀ q ∈ rest,
        f (wordOf q) < (pushAt t (f (wordOf pos)) (wordOf pos)).length := by
      intro q hq
      rw [pushAt_length]
      exact hb q (List.mem_cons_of_mem _ hq)
    have h3 := ih (pushAt t (f (wordOf pos)) (wordOf pos)) h2
    rw [buildTable, h3, sumLen_pushAt t _ _ h1]
    simp
    omega

lemma buildTable_mem_bucket (f : word_type → Nat) (wordOf : Nat → word_type)
    (ps : List Nat) (t : List (List word_type)) (i : Nat) (w : word_type)
    (hw : w ∈ bucketGet (buildTable f wordOf ps t) i) :
    w ∈ bucketGet t i ∨ f w = i := by
  induction ps generalizing t with
  | nil => exact Or.inl hw
  | cons pos rest ih =>
    rw [buildTable] at hw
    rcases ih (pushAt t (f (wordOf pos)) (wordOf pos)) hw with hmem | hfi
    · by_cases hij : i = f (wordOf pos)
      · by_cases hlen : f (wordOf pos) < t.length
        · rw [hij, bucketGet_pushAt_self t _ _ hlen] at hmem
          rcases List.mem_append.mp hmem with hmem2 | hmem2
          · rw [hij]
            exact Or.inl hmem2
          · have hww : w = wordOf pos := by simpa using hmem2
            rw [hww, hij]
            exact Or.inr rfl
        · rw [pushAt_of_le t _ _ (Nat.le_of_not_lt hlen)] at hmem
          exact Or.inl hmem
      · rw [bucketGet_pushAt_ne t i _ _ hij] at hmem
        exact Or.inl hmem
    · exact Or.inr hfi

lemma bucketGet_replicate (n i : Nat) :
    bucketGet (List.replicate n ([] : List word_type)) i = [] := by
  induction n generalizing i with
  | zero => rfl
  | succ m ih =>
    cases i with
    | zero => rfl
    | succ j => simpa [List.replicate, bucketGet] using ih j

lemma sumLen_replicate (n : Nat) :
    sumLen (List.replicate n ([] : List word_type)) = 0 := by
  induction n with
  | zero => rfl
  | succ m ih => simp [sumLen, List.replicate, ih]

lemma sumLen_filter_partition (t : List (List word_type)) :
    sumLen t = sumLen (t.filter (fun k => decide (1 < k.length)))
      + (t.filter (fun k => decide (k.length = 1))).length := by
  induction t with
  | nil => rfl
  | cons b t ih =>
    by_cases h1 : 1 < b.length
    · have h2 : ¬ b.length = 1 := by omega
      simp [sumLen, List.filter_cons, h1, h2] at ih ⊢
      omega
    · by_cases h2 : b.length = 1
      · simp [sumLen, List.filter_cons, h1, h2] at ih ⊢
        omega
      · have h0 : b.length = 0 := by omega
        simp [sumLen, List.filter_cons, h1, h2, h0] at ih ⊢
        omega

lemma bucketGet_eq_getElem (t : List (List word_type)) (i : Nat)
    (hi : i < t.length) : bucketGet t i = t[i] := by
  induction t generalizing i with
  | nil => simp at hi
  | cons b t ih =>
    cases i with
    | zero => rfl
    | succ j => simpa [bucketGet] using ih j (by simpa using hi)

lemma ntcTable_pairwise_disjoint (f : word_type → Nat) (p : FroidurePinBase)
    (nc : Nat) :
    (ntcTable f p nc).Pairwise (fun g1 g2 => ∀ w, w ∈ g1 → w ∉ g2) := by
  rw [List.pairwise_iff_getElem]
  intro i j hi hj hij w hwi hwj
  have hclass : ∀ k (hk : k < (ntcTable f p nc).length),
      w ∈ (ntcTable f p nc)[k] → f w = k := by
    intro k hk hwk
    rw [← bucketGet_eq_getElem _ _ hk] at hwk
    rcases buildTable_mem_bucket f p.factorisation (List.range p.size)
        (List.replicate nc []) k w hwk with hmem | hfk
    · rw [bucketGet_replicate] at hmem
      simp at hmem
    · exact hfk
  have e1 := hclass i hi hwi
  have e2 := hclass j hj hwj
  omega

lemma ntcLoop_pure (h : Hooks) (p : FroidurePinBase) (f : word_type → Nat)
    (hf : ∀ w s1, h.word_to_class_index_impl w s1 = (f w, s1))
    (ps : List Nat) (t : List (List word_type)) (s : CongState)
    (hv : ∀ pos ∈ ps, validate_word s (p.factorisation pos) = .ok ()) :
    ntcLoop h p ps t s = .ok (buildTable f p.factorisation ps t, s) := by
  induction ps generalizing t with
  | nil => rfl
  | cons pos rest ih =>
    have hval := hv pos (List.mem_cons_self _ _)
    rw [ntcLoop, buildTable]
    rw [word_to_class_index, hval, hf]
    exact ih _ (fun q hq => hv q (List.mem_cons_of_mem _ hq))

/-- C7: `non_trivial_classes_impl` fails with the invalid-state error
`noParentSemigroup` when no parent is attached.  With a parent attached, a
class-index hook that answers like a pure function `f`, words that validate,
and class indices within the `nr_classes()` bound (the source's asserted
invariant), it returns the buckets of the table with more than one member;
every returned group then has at least 2 members, the groups are pairwise
disjoint, and the words in the returned groups together with the singleton
buckets account for exactly `parent.size()` words. -/
theorem c7_non_trivial_classes_spec (h : Hooks) (s : CongState) :
    (s.parent = none →
      non_trivial_classes_impl h s = .error (.noParentSemigroup, s)
        ∧ Err.noParentSemigroup.kind = ErrKind.invalidState)
    ∧ (∀ p f nc s1, s.parent = some p →
        nr_classes h s = (nc, s1) →
        (∀ w s2, h.word_to_class_index_impl w s2 = (f w, s2)) →
        (∀ pos ∈ List.range p.size,
          validate_word s1 (p.factorisation pos) = .ok ()) →
        (∀ pos ∈ List.range p.size, f (p.factorisation pos) < nc) →
        non_trivial_classes_impl h s
            = .ok ((ntcTable f p nc).filter
                (fun klass => decide (1 < klass.length)), s1)
          ∧ (∀ g ∈ (ntcTable f p nc).filter
                (fun klass => decide (1 < klass.length)), 2 ≤ g.length)
          ∧ ((ntcTable f p nc).filter
                (fun klass => decide (1 < klass.length))).Pairwise
              (fun g1 g2 => ∀ w, w ∈ g1 → w ∉ g2)
          ∧ sumLen ((ntcTable f p nc).filter
                (fun klass => decide (1 < klass.length)))
              + ((ntcTable f p nc).filter
                  (fun klass => decide (klass.length = 1))).length
              = p.size) := by
  constructor
  · intro h1
    refine ⟨?_, rfl⟩
    simp [non_trivial_classes_impl, h1]
  · intro p f nc s1 hp hnr hf hv hb
    have hloop := ntcLoop_pure h p f hf (List.range p.size)
      (List.replicate nc []) s1 hv
    have heq : non_trivial_classes_impl h s
        = .ok ((ntcTable f p nc).filter
            (fun klass => decide (1 < klass.length)), s1) := by
      simp only [non_trivial_classes_impl, hp, hnr, hloop, ntcTable]
    refine ⟨heq, ?_, ?_, ?_⟩
    · intro g hg
      have := List.of_mem_filter hg
      simp at this
      omega
    · exact List.Pairwise.sublist (List.filter_sublist _)
        (ntcTable_pairwise_disjoint f p nc)
    · have hb2 : ∀ pos ∈ List.range p.size,
          f (p.factorisation pos) < (List.replicate nc ([] : List word_type)).length := by
        intro pos hpos
        rw [List.length_replicate]
        exact hb pos hpos
      have hsum : sumLen (ntcTable f p nc) = p.size := by
        rw [ntcTable, buildTable_sumLen f p.factorisation _ _ hb2,
          sumLen_replicate, List.length_range]
        omega
      have hpart := sumLen_filter_partition (ntcTable f p nc)
      omega

/-- A concrete finished parent with two elements, both factorising to the
word `[0]`. -/
def parentTwo : FroidurePinBase where
  nr_generators := 2
  size := 2
  finished := true
  equal_to := fun u v => decide (u = v)
  factorisation := fun _ => [0]

/-- The state `stateGens2` with `parentTwo` attached and marked finished. -/
def stateWithParent : CongState :=
  { stateGens2 with parent := some parentTwo, finished := true }

/-- C7, witness: with `parentTwo` attached, the trivial hooks (class index
constantly 0, one class) put both elements' words in a single group of size
2, which together with zero singletons accounts for `parentTwo.size = 2`;
and a state with no parent fails with invalid-state. -/
theorem c7_non_trivial_classes_spec_witness :
    (non_trivial_classes_impl trivialHooks stateGens2
        = .error (.noParentSemigroup, stateGens2)
      ∧ Err.noParentSemigroup.kind = ErrKind.invalidState)
    ∧ non_trivial_classes_impl trivialHooks stateWithParent
        = .ok ([[[0], [0]]], stateWithParent)
    ∧ sumLen ((ntcTable (fun _ => 0) parentTwo 1).filter
          (fun klass => decide (1 < klass.length)))
        + ((ntcTable (fun _ => 0) parentTwo 1).filter
            (fun klass => decide (klass.length = 1))).length
        = parentTwo.size := by
  have hmain := (c7_non_trivial_classes_spec trivialHooks stateWithParent).2
    parentTwo (fun _ => 0) 1 stateWithParent rfl rfl (fun w s2 => rfl)
    (fun pos hpos => rfl) (fun pos hpos => Nat.zero_lt_one)
  refine ⟨(c7_non_trivial_classes_spec trivialHooks stateGens2).1 rfl,
    ?_, hmain.2.2.2⟩
  rw [hmain.1]
  rfl

end Libsemigroups
